import Mathlib

/-! Formal model of the coffee bot scraping, flavor-search and translation
logic of `parsers.py`, `parser.py` and `coffee_bot.py`.

The HTML layer is abstracted at the BeautifulSoup query boundary: a product
container (`div.product-item`) becomes an `Item` holding exactly the query
results the code inspects — the first title link (`div.tc-tile__title a`),
the text of the first price tag (`span.text-nowrap`), and the paragraphs of
the description container (`div.tc-tile__description`).  Network fetching
is abstracted as `Option`-valued page data (`none` models a non-200 status,
a timeout or a transport error), and the translator as a `String → String`
function; the HTTP behaviour of `translate_text` itself is modelled
separately with an explicit response type.  The unbounded `while True`
pagination loops are embedded as fuel-indexed recursions.
-/

/-- Model of the title link element: the result of `get_text` on it, and its
optional `href` attribute. -/
structure TitleTag where
  text : String
  href : Option String
deriving DecidableEq

/-- Model of a `p` element inside the description container: its class list,
the result of `get_text(separator=" ", strip=True)` on it, and the results of
`get_text(strip=True)` on its `span.descriptor-badge` descendants. -/
structure Paragraph where
  classes : List String
  text : String
  badges : List String
deriving DecidableEq

/-- Model of one product container (`div.product-item`). -/
structure Item where
  titleTag : Option TitleTag
  priceTag : Option String
  descContainer : Option (List Paragraph)
deriving DecidableEq

/-- Base domain used to build absolute product links. -/
def BASE_URL : String := "https://shop.tastycoffee.ru"

/-- Marker class of the description paragraph the extractors look for. -/
def markerClass : String := "text-[14px]"

/-- Model of `desc_container.find("p", class_="text-[14px]")`: the first
paragraph whose class list contains the marker class. -/
def findMarkerP (paras : List Paragraph) : Option Paragraph :=
  paras.find? (fun p => p.classes.contains markerClass)

/-- Model of Python `str.lower()`, character by character. -/
def pyLower (s : String) : String :=
  String.mk (s.data.map Char.toLower)

/-- Model of Python `str.strip()`: drop whitespace from both ends. -/
def pyStrip (s : String) : String :=
  String.mk (((s.data.dropWhile Char.isWhitespace).reverse.dropWhile Char.isWhitespace).reverse)

/-- Model of the comprehension
`[f.strip().lower() for f in flavors if f.strip()]` normalizing the user
query in `find_coffee_by_flavors`. -/
def normalizeFlavors (flavors : List String) : List String :=
  (flavors.filter (fun f => pyStrip f != "")).map (fun f => pyLower (pyStrip f))

/-- Accumulator-based splitting of a character list into maximal
whitespace-free words. -/
def wordsAux (cur : List Char) : List Char → List String
  | [] => if cur.isEmpty then [] else [String.mk cur.reverse]
  | c :: cs =>
    if c.isWhitespace then
      if cur.isEmpty then wordsAux [] cs else String.mk cur.reverse :: wordsAux [] cs
    else wordsAux (c :: cur) cs

/-- Model of Python `uf.split()`: split on whitespace runs, dropping empty
pieces. -/
def pySplitWords (s : String) : List String :=
  wordsAux [] s.data

/-- Executable check that `w` is a prefix of `text`. -/
def charsPrefix : List Char → List Char → Bool
  | [], _ => true
  | _ :: _, [] => false
  | a :: as, b :: bs => a == b && charsPrefix as bs

/-- Executable check that `w` occurs contiguously inside `text`: the model of
Python `word in note`. -/
def charsSubstr (w : List Char) : List Char → Bool
  | [] => w.isEmpty
  | text@(_ :: rest) => charsPrefix w text || charsSubstr w rest

/-- Model of `all(word in note for word in words)` for the words of one query
term against one note. -/
def noteSatisfies (uf note : String) : Bool :=
  (pySplitWords uf).all (fun w => charsSubstr w.data note.data)

/-- Model of the inner loop `for note in notes: ...` computing
`found_this_flavor` for one query term. -/
def findNote (uf : String) : List String → Bool
  | [] => false
  | note :: rest => if noteSatisfies uf note then true else findNote uf rest

/-- Model of the outer loop over `user_flavors` computing `match`. -/
def matchAll (notes : List String) : List String → Bool
  | [] => true
  | uf :: rest => if findNote uf notes then matchAll notes rest else false

/-- The f-string assembled for one product by `parse_coffee_page`. -/
def assembleProduct (name_ru price_text full_link description_ru notes_text : String) : String :=
  "☕ <b>" ++ name_ru ++ "</b>\n💰 " ++ price_text ++ "\n🔗 <a href=\"" ++ full_link
    ++ "\">Ссылка</a>\n\nℹ️ <i>" ++ description_ru ++ "</i>\n\nНоты вкуса: " ++ notes_text

/-- The f-string assembled for one matching product by
`find_coffee_by_flavors`. -/
def assembleMatch (name_ru notes_joined price_text description_ru link : String) : String :=
  "☕ <b>" ++ name_ru ++ "</b>\nВкусы: " ++ notes_joined ++ "\n💰 Цена: " ++ price_text
    ++ "\nℹ️ <i>" ++ description_ru ++ "</i>\n\n🔗 <a href=\"" ++ link ++ "\">Ссылка</a>"

/-- Body of the `parse_coffee_page` loop (`parsers.py` lines 103 to 141) for
a container whose title link is present: translate the name, build the
absolute link, and degrade a missing price, description or note list to a
placeholder or empty value. -/
def renderTitled (tr : String → String) (title : TitleTag) (price : Option String)
    (descC : Option (List Paragraph)) : String :=
  let name_ru := tr title.text
  let full_link := BASE_URL ++ pyStrip (title.href.getD "")
  let price_text := price.getD "—"
  let description_ru :=
    match descC with
    | some paras =>
      match findMarkerP paras with
      | some p => tr p.text
      | none => ""
    | none => ""
  let notes_list :=
    match descC with
    | some paras =>
      match findMarkerP paras with
      | some p => p.badges
      | none => []
    | none => []
  let notes_text := if notes_list.isEmpty then "—" else String.intercalate (", ") notes_list
  assembleProduct name_ru price_text full_link description_ru notes_text

/-- Rendering of one container as `parse_coffee_page` does it, totalized: a
container without a title link never reaches the rendering code, so that
branch is arbitrary. -/
def renderItem (tr : String → String) (item : Item) : String :=
  match item.titleTag with
  | some title => renderTitled tr title item.priceTag item.descContainer
  | none => ""

/-- The `for idx, item in enumerate(items)` loop of `parse_coffee_page`:
`idx` counts every enumerated container, the loop breaks at `limit`, and a
container without a title link is skipped by `continue`. -/
def parseLoopAux (tr : String → String) (limit : Nat) : Nat → List Item → List String
  | _, [] => []
  | idx, item :: rest =>
    if limit ≤ idx then []
    else
      match item.titleTag with
      | none => parseLoopAux tr limit (idx + 1) rest
      | some title => renderTitled tr title item.priceTag item.descContainer
          :: parseLoopAux tr limit (idx + 1) rest

/-- Error string returned by `parse_coffee_page` when the fetch fails. -/
def fetchErrorMsg : String := "❌ Ошибка при запросе к tastycoffee.ru"

/-- Info string returned by `parse_coffee_page` when no product was rendered. -/
def noProductsMsg : String := "ℹ️ Не удалось найти товары на странице."

/-- Model of `parse_coffee_page(url, limit)` from `parsers.py` and
`coffee_bot.py`: the fetched page is abstracted to the parsed container list
(`none` when `fetch_html` failed), `tr` abstracts `translate_text`. -/
def parse_coffee_page (tr : String → String) (limit : Nat) (fetched : Option (List Item)) :
    List String :=
  match fetched with
  | none => [fetchErrorMsg]
  | some items =>
    let results := parseLoopAux tr limit 0 items
    if results.isEmpty then [noProductsMsg] else results

/-- Record built per container by `parser.py`. -/
structure ProductRecord where
  name : String
  link : String
  description : String
  flavor_notes : List String
deriving DecidableEq

/-- Description text and badge notes extracted through the marker-paragraph
rule shared by `parser.py` and the `parse_coffee_page` variants: missing
container or missing marker paragraph degrade to empty values. -/
def extractDescNotes (descC : Option (List Paragraph)) : String × List String :=
  match descC with
  | some paras =>
    match findMarkerP paras with
    | some p => (p.text, p.badges)
    | none => ("", [])
  | none => ("", [])

/-- Model of the extraction loop of `parse_coffee_page` in `parser.py`
(which shares its name with the formatted variant in `parsers.py`; the
suffix distinguishes the record-producing version): one `ProductRecord` per
container that has a title link. -/
def parse_coffee_page_records : List Item → List ProductRecord
  | [] => []
  | item :: rest =>
    match item.titleTag with
    | none => parse_coffee_page_records rest
    | some title =>
      { name := title.text,
        link := BASE_URL ++ pyStrip (title.href.getD ""),
        description := (extractDescNotes item.descContainer).1,
        flavor_notes := (extractDescNotes item.descContainer).2 }
        :: parse_coffee_page_records rest

/-- Link built in `find_coffee_by_flavors`: unlike the `parse_coffee_page`
paths, the default of `get("href", "")` is not stripped here. -/
def matcherLink (title : TitleTag) : String :=
  BASE_URL ++ title.href.getD ""

/-- Per-container body of the `find_coffee_by_flavors` loop: a container
without a title link, without a description container or without a marker
paragraph is skipped by `continue`; otherwise the product is kept exactly
when every query term finds a satisfying note. -/
def processItem (tr : String → String) (user_flavors : List String) (item : Item) :
    Option String :=
  match item.titleTag with
  | none => none
  | some title =>
    let name_ru := tr title.text
    let link := matcherLink title
    let price_text := item.priceTag.getD "—"
    match item.descContainer with
    | none => none
    | some paras =>
      match findMarkerP paras with
      | none => none
      | some p =>
        let description_ru := tr p.text
        let notes := p.badges.map pyLower
        if matchAll notes user_flavors then
          some (assembleMatch name_ru (String.intercalate (", ") notes)
            price_text description_ru link)
        else none

/-- The `for item in items` loop of `find_coffee_by_flavors` on one page. -/
def processItems (tr : String → String) (user_flavors : List String) : List Item → List String
  | [] => []
  | item :: rest =>
    match processItem tr user_flavors item with
    | some s => s :: processItems tr user_flavors rest
    | none => processItems tr user_flavors rest

/-- Notes contributed by one container in `get_all_flavor_notes`: note that
this loop uses `desc_container.find("p")` — the first paragraph regardless
of its class list — unlike the marker rule of the extractors. -/
def itemNotes (item : Item) : List String :=
  match item.descContainer with
  | none => []
  | some paras =>
    match paras.head? with
    | none => []
    | some p => p.badges.map pyLower

/-- A page ends the crawl when its fetch fails or it has no product
container: both pagination loops break on exactly this condition. -/
def pageEnds (pages : Nat → Option (List Item)) (p : Nat) : Bool :=
  match pages p with
  | none => true
  | some items => items.isEmpty

/-- The pages actually fetched by the shared `while True` pagination loop of
`get_all_flavor_notes` and `find_coffee_by_flavors`, starting at page `p`:
each iteration fetches the current page, then breaks if it ends the crawl,
else moves to the next page.  `fuel` bounds the recursion. -/
def fetchedPages (pages : Nat → Option (List Item)) : Nat → Nat → List Nat
  | 0, _ => []
  | fuel + 1, p =>
    p :: (if pageEnds pages p then [] else fetchedPages pages fuel (p + 1))

/-- The shared pagination skeleton of the two crawl loops, parameterized by
the per-page body. -/
def crawlLoop {α : Type} (pages : Nat → Option (List Item)) (body : List Item → List α) :
    Nat → Nat → List α
  | 0, _ => []
  | fuel + 1, p =>
    match pages p with
    | none => []
    | some items =>
      if items.isEmpty then []
      else body items ++ crawlLoop pages body fuel (p + 1)

/-- The containers examined by the crawl, in order. -/
def crawledItems (pages : Nat → Option (List Item)) (fuel startPage : Nat) : List Item :=
  crawlLoop pages (fun items => items) fuel startPage

/-- The `while True` loop of `get_all_flavor_notes` collecting the lowercased
badge notes, in encounter order (the set structure is applied afterwards). -/
def notesLoop (pages : Nat → Option (List Item)) : Nat → Nat → List String
  | 0, _ => []
  | fuel + 1, p =>
    match pages p with
    | none => []
    | some items =>
      if items.isEmpty then []
      else (items.map itemNotes).flatten ++ notesLoop pages fuel (p + 1)

/-- The `while True` loop of `find_coffee_by_flavors` collecting formatted
matches. -/
def findLoop (pages : Nat → Option (List Item)) (tr : String → String)
    (user_flavors : List String) : Nat → Nat → List String
  | 0, _ => []
  | fuel + 1, p =>
    match pages p with
    | none => []
    | some items =>
      if items.isEmpty then []
      else processItems tr user_flavors items ++ findLoop pages tr user_flavors fuel (p + 1)

/-- Lexicographic comparison of character lists by code point, the order
Python uses on strings. -/
def charsLt : List Char → List Char → Bool
  | [], [] => false
  | [], _ :: _ => true
  | _ :: _, [] => false
  | a :: as, b :: bs => if a < b then true else if b < a then false else charsLt as bs

/-- Sorted insertion that drops an element already present: the building
block for modelling Python `sorted(set(...))`. -/
def insertSorted (s : String) : List String → List String
  | [] => [s]
  | x :: xs =>
    if charsLt s.data x.data then s :: x :: xs
    else if s = x then x :: xs
    else x :: insertSorted s xs

/-- Model of Python `sorted(set(l))`: the distinct elements of `l` in
increasing order. -/
def pySortedSet (l : List String) : List String :=
  l.foldr insertSorted []

/-- Model of `get_all_flavor_notes()`: crawl every page from page 1 and
return the sorted set of collected notes.  `fuel` bounds the unbounded
`while True` loop. -/
def get_all_flavor_notes (pages : Nat → Option (List Item)) (fuel : Nat) : List String :=
  pySortedSet (notesLoop pages fuel 1)

/-- Sentinel returned by `find_coffee_by_flavors` when no product matched. -/
def noMatchesMsg : String := "Совпадений не найдено."

/-- Model of `find_coffee_by_flavors(flavors)`: normalize the query, crawl
every page from page 1, and fall back to the sentinel when the collected
result list is empty (`return results or [...]`). -/
def find_coffee_by_flavors (pages : Nat → Option (List Item)) (tr : String → String)
    (flavors : List String) (fuel : Nat) : List String :=
  let user_flavors := normalizeFlavors flavors
  let results := findLoop pages tr user_flavors fuel 1
  if results.isEmpty then [noMatchesMsg] else results

/-- Flavor-note extraction per container as the specification words it for
the index builder: notes come only from the first paragraph carrying the
marker class.  Stated for comparison with `itemNotes`, which
`get_all_flavor_notes` actually uses. -/
def itemNotesMarkerRule (item : Item) : List String :=
  match item.descContainer with
  | none => []
  | some paras =>
    match findMarkerP paras with
    | none => []
    | some p => p.badges.map pyLower

/-- The flavor universe that the marker-paragraph rule would produce. -/
def markerRuleFlavorUniverse (pages : Nat → Option (List Item)) (fuel : Nat) : List String :=
  pySortedSet (crawlLoop pages (fun items => (items.map itemNotesMarkerRule).flatten) fuel 1)

/-- Minimal model of the JSON values `translate_text` inspects. -/
inductive Json where
  | str (s : String)
  | num (n : Int)
  | arr (elems : List Json)
  | obj

/-- Python subscription `v[i]` as used on the decoded response: lists index
into their elements, strings into one-character strings, anything else (or
an out-of-range index) raises — modelled as `none`, which the bare `except`
of `translate_text` turns into the fall-back. -/
def pyIndex : Json → Nat → Option Json
  | Json.arr l, i => l[i]?
  | Json.str s, i => (s.data[i]?).map (fun c => Json.str (String.mk [c]))
  | _, _ => none

/-- Outcome of the translation HTTP call: `failure` covers a raised
exception anywhere in the request or JSON decoding, `ok` carries the status
code and decoded body. -/
inductive TResp where
  | failure
  | ok (status : Nat) (body : Json)

/-- Model of `translate_text(text, dest)` over an abstract response: return
the original text on a non-200 status, on a body that is not a non-empty
list whose first element is a list, or on any indexing failure while
extracting `arr[0][0][0]`; otherwise return the extracted value. -/
def translate_text (text : String) (resp : TResp) : Json :=
  match resp with
  | TResp.failure => Json.str text
  | TResp.ok status body =>
    if status ≠ 200 then Json.str text
    else
      match body with
      | Json.arr (Json.arr inner :: _) =>
        match inner[0]? with
        | none => Json.str text
        | some seg =>
          match pyIndex seg 0 with
          | none => Json.str text
          | some j => j
      | _ => Json.str text

/-- The failure cases the fail-open contract of `translate_text` covers:
a raised exception, a non-200 status, a body without the expected
nested-array shape, or an indexing failure during extraction. -/
def translateFailureCase (resp : TResp) : Prop :=
  resp = TResp.failure ∨
  (∃ status body, resp = TResp.ok status body ∧ status ≠ 200) ∨
  (∃ status body, resp = TResp.ok status body ∧
    ∀ inner rest, body ≠ Json.arr (Json.arr inner :: rest)) ∨
  (∃ status inner rest, resp = TResp.ok status (Json.arr (Json.arr inner :: rest)) ∧
    (inner[0]? = none ∨ ∃ seg, inner[0]? = some seg ∧ pyIndex seg 0 = none))

/-- Identity translator, used to instantiate the abstract translator in
concrete evaluations. -/
def idTr : String → String := fun s => s

/-- Marker paragraph with two flavor notes, from the worked example of the
specification (notes "dark chocolate" and "red apple"). -/
def w1p : Paragraph := { classes := [markerClass], text := "desc", badges := ["dark chocolate", "red apple"] }

/-- Paragraph list of the worked example. -/
def w1paras : List Paragraph := [w1p]

/-- Title link of the worked example. -/
def w1t : TitleTag := { text := "Prod", href := some "/p" }

/-- Product container of the worked example. -/
def w1item : Item := { titleTag := some w1t, priceTag := none, descContainer := some w1paras }

/-- Two-term query of the worked example. -/
def w1q : List String := ["chocolate", "apple"]

/-- A plain container used to populate non-empty pages. -/
def demoItem : Item := { titleTag := some { text := "A", href := some "/a" }, priceTag := none, descContainer := none }

/-- Catalog where pages 1 and 2 have a product and page 3 has zero
containers. -/
def w2pages : Nat → Option (List Item) := fun n => if n ≤ 2 then some [demoItem] else some []

/-- Container whose title link exists but has empty text. -/
def c3item : Item := { titleTag := some { text := "", href := some "/x" }, priceTag := none, descContainer := none }

/-- The record extracted from `c3item`: its name is empty. -/
def c3rec : ProductRecord := { name := "", link := "https://shop.tastycoffee.ru/x", description := "", flavor_notes := [] }

/-- One-container item list with a title link present. -/
def w3items : List Item := [{ titleTag := some { text := "Name", href := some "/a" }, priceTag := none, descContainer := none }]

/-- The record extracted from `w3items`. -/
def w3rec : ProductRecord := { name := "Name", link := "https://shop.tastycoffee.ru/a", description := "", flavor_notes := [] }

/-- Container with name and link but no description container. -/
def c4item : Item := { titleTag := some { text := "Coffee", href := some "/x" }, priceTag := none, descContainer := none }

/-- One-page catalog holding only `c4item`. -/
def c4pages : Nat → Option (List Item) := fun n => if n = 1 then some [c4item] else none

/-- Title link used for the degradation paths. -/
def w4t : TitleTag := { text := "T", href := none }

/-- Description container whose only paragraph lacks the marker class. -/
def w4paras : List Paragraph := [{ classes := ["other"], text := "d", badges := [] }]

/-- Input text of the translator fallback example. -/
def w5text : String := "hello"

/-- Translation endpoint response with HTTP status 500. -/
def w5resp : TResp := TResp.ok 500 (Json.arr [])

/-- Paragraph without the marker class but with a badge note. -/
def c6para : Paragraph := { classes := ["other"], text := "d", badges := ["X"] }

/-- Container whose description has only a marker-less paragraph. -/
def c6item : Item := { titleTag := none, priceTag := none, descContainer := some [c6para] }

/-- One-page catalog holding only `c6item`. -/
def c6pages : Nat → Option (List Item) := fun n => if n = 1 then some [c6item] else none

/-- Catalog whose very first page fetch fails. -/
def w7pages : Nat → Option (List Item) := fun _ => none

/-- One-term query for the sentinel example. -/
def w7q : List String := ["nutty"]

/-- Query made only of empty and whitespace-only terms. -/
def w8q : List String := ["", "  "]

/-- Container with a title link and a marker paragraph without badges. -/
def w8item : Item := { titleTag := some { text := "B", href := none }, priceTag := none, descContainer := some [{ classes := [markerClass], text := "t", badges := [] }] }

/-- Container with the given title link and fields, used to state properties
of containers whose title link is present. -/
def titledItem (t : TitleTag) (price : Option String) (descC : Option (List Paragraph)) : Item :=
  { titleTag := some t, priceTag := price, descContainer := descC }

/-- Container whose title link has the given text and no href attribute. -/
def noHrefItem (nm : String) (price : Option String) (descC : Option (List Paragraph)) : Item :=
  { titleTag := some { text := nm, href := none }, priceTag := price, descContainer := descC }

/-- Three containers, the first without a title link: it consumes limit
budget without producing a record. -/
def w9items : List Item :=
  [{ titleTag := none, priceTag := none, descContainer := none },
   { titleTag := some { text := "A", href := none }, priceTag := none, descContainer := none },
   { titleTag := some { text := "B", href := none }, priceTag := none, descContainer := none }]

/-- Correctness of the executable prefix check. -/
theorem charsPrefix_iff (w : List Char) : ∀ text, charsPrefix w text = true ↔ w <+: text := by
  induction w with
  | nil => intro text; simp [charsPrefix, List.nil_prefix]
  | cons a as ih =>
    intro text
    cases text with
    | nil => simp [charsPrefix, List.prefix_nil]
    | cons b bs => simp [charsPrefix, List.cons_prefix_cons, ih, Bool.and_eq_true, beq_iff_eq]

/-- Correctness of the executable substring check: it decides contiguous
containment, the meaning of Python `word in note`. -/
theorem charsSubstr_iff (w : List Char) : ∀ text, charsSubstr w text = true ↔ w <:+: text := by
  intro text
  induction text with
  | nil => simp [charsSubstr, List.infix_nil, List.isEmpty_iff]
  | cons c rest ih => simp [charsSubstr, List.infix_cons_iff, charsPrefix_iff, ih, Bool.or_eq_true]

/-- The per-term note check agrees with the declarative statement. -/
theorem noteSatisfies_iff (uf note : String) :
    noteSatisfies uf note = true ↔ ∀ w ∈ pySplitWords uf, w.data <:+: note.data := by
  simp [noteSatisfies, List.all_eq_true, charsSubstr_iff]

/-- The inner note-searching loop agrees with the declarative statement. -/
theorem findNote_iff (uf : String) : ∀ notes, findNote uf notes = true ↔
    ∃ note ∈ notes, ∀ w ∈ pySplitWords uf, w.data <:+: note.data := by
  intro notes
  induction notes with
  | nil => simp [findNote]
  | cons note rest ih =>
    by_cases h : noteSatisfies uf note = true
    · simp [findNote, h]
      exact Or.inl ((noteSatisfies_iff uf note).mp h)
    · simp only [findNote, if_neg h, ih]
      constructor
      · rintro ⟨n, hn, hw⟩; exact ⟨n, List.mem_cons_of_mem _ hn, hw⟩
      · rintro ⟨n, hn, hw⟩
        rcases List.mem_cons.mp hn with rfl | hn'
        · exact absurd ((noteSatisfies_iff uf n).mpr hw) h
        · exact ⟨n, hn', hw⟩

/-- The outer query loop agrees with the declarative conjunctive match. -/
theorem matchAll_iff (notes : List String) : ∀ ufs, matchAll notes ufs = true ↔
    ∀ uf ∈ ufs, ∃ note ∈ notes, ∀ w ∈ pySplitWords uf, w.data <:+: note.data := by
  intro ufs
  induction ufs with
  | nil => simp [matchAll]
  | cons uf rest ih =>
    by_cases h : findNote uf notes = true
    · simp [matchAll, h, ih, List.forall_mem_cons, (findNote_iff uf notes).mp h]
    · simp only [matchAll, if_neg h, List.forall_mem_cons]
      refine ⟨fun hfalse => absurd hfalse (by simp), fun hall => ?_⟩
      exact absurd ((findNote_iff uf notes).mpr hall.1) h

/-- C1: a product that reaches the matching code (title link, description
container and marker paragraph present) is included by
`find_coffee_by_flavors` if and only if every normalized query term,
split into words, has at least one lowercased note containing all of the
words of the term as substrings; terms may be satisfied by different notes. -/
theorem flavor_match_iff (tr : String → String) (query : List String) (item : Item)
    (t : TitleTag) (paras : List Paragraph) (p : Paragraph)
    (ht : item.titleTag = some t) (hd : item.descContainer = some paras)
    (hp : findMarkerP paras = some p) :
    (processItem tr (normalizeFlavors query) item).isSome = true ↔
      ∀ uf ∈ normalizeFlavors query, ∃ note ∈ p.badges.map pyLower,
        ∀ w ∈ pySplitWords uf, w.data <:+: note.data := by
  rw [← matchAll_iff]
  simp only [processItem, ht, hd, hp]
  cases h : matchAll (p.badges.map pyLower) (normalizeFlavors query) <;> simp [h]

/-- Witness for C1 on the specification example: notes "dark chocolate" and
"red apple" match the query ["chocolate", "apple"]. -/
theorem flavor_match_iff_witness :
    (processItem idTr (normalizeFlavors w1q) w1item).isSome = true := by
  refine (flavor_match_iff idTr w1q w1item w1t w1paras w1p rfl rfl rfl).mpr ?_
  have hall : ∀ uf ∈ normalizeFlavors w1q, findNote uf (w1p.badges.map pyLower) = true := by
    decide
  intro uf huf
  exact (findNote_iff uf _).mp (hall uf huf)

/-- C5: `translate_text` is fail-open — on a raised exception, a non-200
status, a body without the expected nested-array shape, or an indexing
failure during extraction, it returns the original input unchanged. -/
theorem translate_text_fail_open (text : String) (resp : TResp)
    (h : translateFailureCase resp) : translate_text text resp = Json.str text := by
  rcases h with hfail | ⟨st, body, rfl, hst⟩ | ⟨st, body, rfl, hshape⟩ |
    ⟨st, inner, rest, rfl, hidx⟩
  · subst hfail; rfl
  · simp only [translate_text]
    rw [if_pos hst]
  · by_cases h200 : st ≠ 200
    · simp only [translate_text]; rw [if_pos h200]
    · simp only [translate_text]; rw [if_neg h200]
  · by_cases h200 : st ≠ 200
    · simp only [translate_text]; rw [if_pos h200]
    · simp only [translate_text]
      rw [if_neg h200]
      rcases hidx with hnone | ⟨seg, hseg, hpi⟩
      · simp [hnone]
      · simp [hseg, hpi]

/-- Witness for C5: an HTTP 500 response leaves "hello" unchanged. -/
theorem translate_text_fail_open_witness :
    translate_text w5text w5resp = Json.str w5text :=
  translate_text_fail_open w5text w5resp
    (Or.inr (Or.inl ⟨500, Json.arr [], rfl, by decide⟩))

/-- C7: `find_coffee_by_flavors` never returns an empty list; whenever the
crawl collected no matching product — in particular whenever the very first
page fetch fails — it returns exactly the single sentinel string, so the
two situations produce identical output. -/
theorem find_by_flavors_sentinel (pages : Nat → Option (List Item)) (tr : String → String)
    (flavors : List String) (fuel : Nat) :
    find_coffee_by_flavors pages tr flavors fuel ≠ [] ∧
    (findLoop pages tr (normalizeFlavors flavors) fuel 1 = [] →
      find_coffee_by_flavors pages tr flavors fuel = [noMatchesMsg]) ∧
    (pages 1 = none → find_coffee_by_flavors pages tr flavors fuel = [noMatchesMsg]) := by
  have hnone : pages 1 = none → findLoop pages tr (normalizeFlavors flavors) fuel 1 = [] := by
    intro h
    cases fuel with
    | zero => rfl
    | succ f => simp [findLoop, h]
  by_cases hr : findLoop pages tr (normalizeFlavors flavors) fuel 1 = []
  · simp only [find_coffee_by_flavors, hr]
    refine ⟨by simp, fun _ => by simp, fun _ => by simp⟩
  · have he : (findLoop pages tr (normalizeFlavors flavors) fuel 1).isEmpty = false := by
      simpa [List.isEmpty_iff] using hr
    refine ⟨?_, fun hc => absurd hc hr, fun hp => absurd (hnone hp) hr⟩
    simpa [find_coffee_by_flavors, he] using hr

/-- Witness for C7: with the first page fetch failing, the result is the
sentinel. -/
theorem find_by_flavors_sentinel_witness :
    find_coffee_by_flavors w7pages idTr w7q 5 = [noMatchesMsg] :=
  (find_by_flavors_sentinel w7pages idTr w7q 5).2.2 rfl

/-- C8: a query whose terms are all empty or whitespace-only normalizes to
the empty term list, the matcher then behaves as with no constraints, and a
product passes exactly when it has a title link, a description container
and a marker paragraph. -/
theorem empty_query_matches_all (q : List String) (h : ∀ f ∈ q, pyStrip f = "") :
    normalizeFlavors q = [] ∧
    ∀ tr item, processItem tr (normalizeFlavors q) item = processItem tr [] item ∧
      ((processItem tr [] item).isSome = true ↔
        item.titleTag.isSome = true ∧
        ∃ paras, item.descContainer = some paras ∧ (findMarkerP paras).isSome = true) := by
  have hnorm : normalizeFlavors q = [] := by
    have hfil : q.filter (fun f => pyStrip f != "") = [] :=
      List.filter_eq_nil_iff.mpr (fun f hf => by simp [h f hf])
    simp [normalizeFlavors, hfil]
  refine ⟨hnorm, fun tr item => ⟨by rw [hnorm], ?_⟩⟩
  rcases item with ⟨tt, price, descC⟩
  cases tt with
  | none => simp [processItem]
  | some t =>
    cases descC with
    | none => simp [processItem]
    | some paras =>
      cases hp : findMarkerP paras with
      | none => simp [processItem, hp]
      | some p => simp [processItem, hp, matchAll]

/-- Witness for C8: the all-whitespace query normalizes to the empty list
and a qualifying product is included. -/
theorem empty_query_matches_all_witness :
    normalizeFlavors w8q = [] ∧ (processItem idTr [] w8item).isSome = true := by
  have hthm := empty_query_matches_all w8q (by decide)
  exact ⟨hthm.1, (hthm.2 idTr w8item).2.mpr ⟨rfl, ⟨_, rfl, rfl⟩⟩⟩

/-- C10: a title link without an href still yields a record in every
extraction path, and its link field is the bare base domain. -/
theorem missing_href_base_link (nm : String) (price : Option String)
    (descC : Option (List Paragraph)) :
    (parse_coffee_page_records [noHrefItem nm price descC]).map ProductRecord.link = [BASE_URL] ∧
    (parse_coffee_page_records [noHrefItem nm price descC]).length = 1 ∧
    matcherLink { text := nm, href := none } = BASE_URL :=
  ⟨rfl, rfl, rfl⟩

/-- Witness for C10 at a concrete container. -/
theorem missing_href_base_link_witness :
    (parse_coffee_page_records [noHrefItem ("P") none none]).map ProductRecord.link = [BASE_URL] :=
  (missing_href_base_link ("P") none none).1

/-- Counterexample for C3 as stated: a container whose title link exists but
has empty text produces a record whose name is the empty string, so the
Extractor can emit an empty-name record. -/
theorem extractor_empty_name_emitted :
    parse_coffee_page_records [c3item] = [c3rec] ∧ c3rec.name = "" :=
  ⟨by decide, rfl⟩

/-- C3 (amended): the Extractor omits every container without a title-link
element — filtering them away changes nothing — and every emitted record
takes its name from the title link of some input container (that text, and
hence the name, may be empty). -/
theorem extractor_omits_untitled :
    (∀ items : List Item,
      parse_coffee_page_records (items.filter (fun i => i.titleTag.isSome)) =
        parse_coffee_page_records items) ∧
    (∀ (items : List Item) (r : ProductRecord), r ∈ parse_coffee_page_records items →
      ∃ item ∈ items, ∃ t, item.titleTag = some t ∧ r.name = t.text) := by
  constructor
  · intro items
    induction items with
    | nil => rfl
    | cons item rest ih =>
      cases ht : item.titleTag with
      | none => simp [parse_coffee_page_records, List.filter_cons, ht, ih]
      | some t => simp [parse_coffee_page_records, List.filter_cons, ht, ih]
  · intro items
    induction items with
    | nil => intro r hr; simp [parse_coffee_page_records] at hr
    | cons item rest ih =>
      intro r hr
      cases ht : item.titleTag with
      | none =>
        simp only [parse_coffee_page_records, ht] at hr
        obtain ⟨it, hit, t, htt, hn⟩ := ih r hr
        exact ⟨it, List.mem_cons_of_mem _ hit, t, htt, hn⟩
      | some t =>
        simp only [parse_coffee_page_records, ht] at hr
        rcases List.mem_cons.mp hr with rfl | hr'
        · exact ⟨item, List.mem_cons_self _ _, t, ht, rfl⟩
        · obtain ⟨it, hit, t', htt, hn⟩ := ih r hr'
          exact ⟨it, List.mem_cons_of_mem _ hit, t', htt, hn⟩

/-- Witness for C3: the record extracted from a titled container is traced
back to that container and its title text. -/
theorem extractor_omits_untitled_witness :
    ∃ item ∈ w3items, ∃ t, item.titleTag = some t ∧ w3rec.name = t.text :=
  extractor_omits_untitled.2 w3items w3rec (by decide)

/-- Counterexample for C4 as stated: a container with both name and link but
no description container is dropped by the flavor matcher — even the
unconstrained query returns the sentinel instead of a record. -/
theorem matcher_drops_record_without_description :
    processItem idTr [] c4item = none ∧
    find_coffee_by_flavors c4pages idTr [] 2 = [noMatchesMsg] :=
  ⟨rfl, by decide⟩

/-- C4 (amended): in `parse_coffee_page` and `parser.py` a container with a
title link always yields its record, with missing price, description and
notes degraded to a placeholder or empty values; but in
`find_coffee_by_flavors` the record is dropped when the description
container or the marker paragraph is missing. -/
theorem field_degradation_paths (tr : String → String) (t : TitleTag) (price : Option String)
    (ufs : List String) :
    parse_coffee_page_records [titledItem t price none] =
      [{ name := t.text, link := BASE_URL ++ pyStrip (t.href.getD ""), description := "",
         flavor_notes := [] }] ∧
    parseLoopAux tr 5 0 [titledItem t none none] =
      [assembleProduct (tr t.text) ("—") (BASE_URL ++ pyStrip (t.href.getD "")) ("") ("—")] ∧
    processItem tr ufs (titledItem t price none) = none ∧
    (∀ paras, findMarkerP paras = none →
      processItem tr ufs (titledItem t price (some paras)) = none) := by
  refine ⟨rfl, rfl, rfl, fun paras hp => ?_⟩
  simp [processItem, titledItem, hp]

/-- Witness for C4: a titled container whose only paragraph lacks the marker
class is dropped by the matcher. -/
theorem field_degradation_paths_witness :
    processItem idTr [] (titledItem w4t none (some w4paras)) = none :=
  (field_degradation_paths idTr w4t none []).2.2.2 w4paras (by decide)

/-- The enumerate-with-break loop inspects exactly the first `limit - idx`
containers and renders those with a title link. -/
theorem parseLoopAux_eq_take (tr : String → String) (limit : Nat) :
    ∀ (items : List Item) (idx : Nat),
      parseLoopAux tr limit idx items =
        ((items.take (limit - idx)).filter (fun i => i.titleTag.isSome)).map (renderItem tr) := by
  intro items
  induction items with
  | nil => intro idx; simp [parseLoopAux]
  | cons item rest ih =>
    intro idx
    by_cases h : limit ≤ idx
    · have hz : limit - idx = 0 := Nat.sub_eq_zero_of_le h
      simp [parseLoopAux, h, hz]
    · have hs : limit - idx = (limit - (idx + 1)) + 1 := by omega
      rw [hs, List.take_succ_cons]
      cases ht : item.titleTag with
      | none =>
        simp only [parseLoopAux, if_neg h, ht, List.filter_cons]
        simp [ht, ih (idx + 1)]
      | some t =>
        simp only [parseLoopAux, if_neg h, ht, List.filter_cons]
        simp [ht, ih (idx + 1), renderItem]

/-- C9: `parse_coffee_page` inspects only the first `limit` containers (the
loop equals rendering the titled containers among `items.take limit`), so it
emits at most `limit` entries; untitled containers consume the budget. -/
theorem parse_page_limit_bound (tr : String → String) (limit : Nat) (items : List Item) :
    parseLoopAux tr limit 0 items =
      ((items.take limit).filter (fun i => i.titleTag.isSome)).map (renderItem tr) ∧
    (parseLoopAux tr limit 0 items).length ≤ limit := by
  have h := parseLoopAux_eq_take tr limit items 0
  rw [Nat.sub_zero] at h
  refine ⟨h, ?_⟩
  rw [h, List.length_map]
  calc ((items.take limit).filter (fun i => i.titleTag.isSome)).length
      ≤ (items.take limit).length := List.length_filter_le _ _
    _ ≤ limit := by rw [List.length_take]; omega

/-- Witness for C9: three containers, the first untitled, with limit 2 —
only one record comes out because the untitled container used the budget. -/
theorem parse_page_limit_bound_witness :
    parseLoopAux idTr 2 0 w9items =
      ((w9items.take 2).filter (fun i => i.titleTag.isSome)).map (renderItem idTr) ∧
    (parseLoopAux idTr 2 0 w9items).length ≤ 2 :=
  parse_page_limit_bound idTr 2 w9items

/-- Any page number in the fetch trace is at least the start page, and every
earlier page from the start did not end the crawl. -/
theorem fetchedPages_mem (pages : Nat → Option (List Item)) :
    ∀ (fuel s q : Nat), q ∈ fetchedPages pages fuel s →
      s ≤ q ∧ ∀ r, s ≤ r → r < q → pageEnds pages r = false := by
  intro fuel
  induction fuel with
  | zero => intro s q hq; simp [fetchedPages] at hq
  | succ f ih =>
    intro s q hq
    rw [fetchedPages] at hq
    rcases List.mem_cons.mp hq with rfl | hq'
    · exact ⟨Nat.le_refl _, fun r hr1 hr2 => absurd hr1 (by omega)⟩
    · by_cases hend : pageEnds pages s = true
      · rw [if_pos hend] at hq'; simp at hq'
      · rw [if_neg hend] at hq'
        have hb : pageEnds pages s = false := Bool.eq_false_iff.mpr hend
        obtain ⟨h1, h2⟩ := ih (s + 1) q hq'
        refine ⟨by omega, fun r hr1 hr2 => ?_⟩
        rcases Nat.eq_or_lt_of_le hr1 with rfl | hlt
        · exact hb
        · exact h2 r (by omega) hr2

/-- Shifting a range-based page list by one start position. -/
theorem range_map_shift (s k : Nat) :
    (List.range (k + 1)).map (fun i => s + i) =
      s :: (List.range k).map (fun i => (s + 1) + i) := by
  rw [List.range_succ_eq_map, List.map_cons, List.map_map]
  refine congrArg₂ List.cons (by omega) ?_
  exact List.map_congr_left fun i _ => by simp only [Function.comp_apply]; omega

/-- If the pages before `s + k` do not end the crawl and `s + k` does, the
fetch trace from `s` is exactly the pages `s` to `s + k`, for any
sufficient fuel. -/
theorem fetchedPages_of_first_end (pages : Nat → Option (List Item)) :
    ∀ (k s : Nat), (∀ i, i < k → pageEnds pages (s + i) = false) →
      pageEnds pages (s + k) = true → ∀ fuel, k < fuel →
      fetchedPages pages fuel s = (List.range (k + 1)).map (fun i => s + i) := by
  intro k
  induction k with
  | zero =>
    intro s _ hend fuel hfuel
    obtain ⟨f, rfl⟩ : ∃ f, fuel = f + 1 := ⟨fuel - 1, by omega⟩
    rw [fetchedPages, if_pos (by simpa using hend)]
    rw [show List.range 1 = [0] from rfl]
    simp
  | succ k ih =>
    intro s hlt hend fuel hfuel
    obtain ⟨f, rfl⟩ : ∃ f, fuel = f + 1 := ⟨fuel - 1, by omega⟩
    have h0 : pageEnds pages s = false := by simpa using hlt 0 (by omega)
    rw [fetchedPages, if_neg (by simp [h0])]
    have hshift : ∀ i, i < k → pageEnds pages ((s + 1) + i) = false := by
      intro i hi
      have := hlt (i + 1) (by omega)
      rwa [show s + (i + 1) = (s + 1) + i by omega] at this
    have hend' : pageEnds pages ((s + 1) + k) = true := by
      rwa [show s + (k + 1) = (s + 1) + k by omega] at hend
    rw [ih (s + 1) hshift hend' f (by omega)]
    rw [range_map_shift s (k + 1)]

/-- Under the same first-ending-page hypotheses, the crawl result is the
same for every sufficient fuel: the loop terminates at page `s + k`. -/
theorem crawlLoop_stable {α : Type} (pages : Nat → Option (List Item))
    (body : List Item → List α) :
    ∀ (k s : Nat), (∀ i, i < k → pageEnds pages (s + i) = false) →
      pageEnds pages (s + k) = true → ∀ fuel, k < fuel →
      crawlLoop pages body fuel s = crawlLoop pages body (k + 1) s := by
  intro k
  induction k with
  | zero =>
    intro s _ hend fuel hfuel
    obtain ⟨f, rfl⟩ : ∃ f, fuel = f + 1 := ⟨fuel - 1, by omega⟩
    rw [crawlLoop, crawlLoop]
    simp only [Nat.add_zero] at hend
    cases hp : pages s with
    | none => rfl
    | some items =>
      have he : items.isEmpty = true := by simpa [pageEnds, hp] using hend
      simp [he]
  | succ k ih =>
    intro s hlt hend fuel hfuel
    obtain ⟨f, rfl⟩ : ∃ f, fuel = f + 1 := ⟨fuel - 1, by omega⟩
    have h0 : pageEnds pages s = false := by simpa using hlt 0 (by omega)
    have hshift : ∀ i, i < k → pageEnds pages ((s + 1) + i) = false := by
      intro i hi
      have := hlt (i + 1) (by omega)
      rwa [show s + (i + 1) = (s + 1) + i by omega] at this
    have hend' : pageEnds pages ((s + 1) + k) = true := by
      rwa [show s + (k + 1) = (s + 1) + k by omega] at hend
    rw [crawlLoop, crawlLoop]
    cases hp : pages s with
    | none => rfl
    | some items =>
      have he : items.isEmpty = false := by
        simp only [pageEnds, hp] at h0; exact h0
      simp only [he, Bool.false_eq_true, if_false]
      rw [ih (s + 1) hshift hend' f (by omega)]

/-- The note-collecting loop is the generic pagination skeleton applied to
per-container note extraction. -/
theorem notesLoop_eq_crawl (pages : Nat → Option (List Item)) :
    ∀ fuel s, notesLoop pages fuel s =
      crawlLoop pages (fun items => (items.map itemNotes).flatten) fuel s := by
  intro fuel
  induction fuel with
  | zero => intro s; rfl
  | succ f ih =>
    intro s
    rw [notesLoop, crawlLoop]
    cases pages s with
    | none => rfl
    | some items =>
      by_cases he : items.isEmpty = true
      · simp [he]
      · simp [he, ih]

/-- The match-collecting loop is the generic pagination skeleton applied to
per-container matching. -/
theorem findLoop_eq_crawl (pages : Nat → Option (List Item)) (tr : String → String)
    (ufs : List String) :
    ∀ fuel s, findLoop pages tr ufs fuel s =
      crawlLoop pages (fun items => processItems tr ufs items) fuel s := by
  intro fuel
  induction fuel with
  | zero => intro s; rfl
  | succ f ih =>
    intro s
    rw [findLoop, crawlLoop]
    cases pages s with
    | none => rfl
    | some items =>
      by_cases he : items.isEmpty = true
      · simp [he]
      · simp [he, ih]

/-- C2: both crawls visit pages 1, 2, 3, ... in order and stop at the first
ending page (fetch failed or zero containers): the fetch trace is exactly
pages 1 to P for the first ending page P; a page past an ending page (page 4
after an ending page 3) is never fetched; and once some page N ends the
crawl, the results of `get_all_flavor_notes` and `find_coffee_by_flavors`
are the same for every fuel bound of at least N — the loops terminate. -/
theorem crawl_pagination_termination (pages : Nat → Option (List Item)) (N : Nat)
    (hN1 : 1 ≤ N) (hN : pageEnds pages N = true) :
    (∃ P, 1 ≤ P ∧ P ≤ N ∧ pageEnds pages P = true ∧
      (∀ q, 1 ≤ q → q < P → pageEnds pages q = false) ∧
      (∀ fuel, N ≤ fuel → fetchedPages pages fuel 1 = (List.range P).map (fun i => 1 + i))) ∧
    (pageEnds pages 3 = true → ∀ fuel, 4 ∉ fetchedPages pages fuel 1) ∧
    (∀ fuel, N ≤ fuel →
      get_all_flavor_notes pages fuel = get_all_flavor_notes pages N ∧
      ∀ tr flavors, find_coffee_by_flavors pages tr flavors fuel =
        find_coffee_by_flavors pages tr flavors N) := by
  have hex : ∃ m, pageEnds pages (m + 1) = true := ⟨N - 1, by rwa [Nat.sub_add_cancel hN1]⟩
  have hk : pageEnds pages (Nat.find hex + 1) = true := Nat.find_spec hex
  have hkle : Nat.find hex ≤ N - 1 := Nat.find_le (by rwa [Nat.sub_add_cancel hN1])
  have hfalse : ∀ i, i < Nat.find hex → pageEnds pages (1 + i) = false := by
    intro i hi
    have hne := Nat.find_min hex hi
    rw [show 1 + i = i + 1 by omega]
    exact Bool.eq_false_iff.mpr hne
  have hend1 : pageEnds pages (1 + Nat.find hex) = true := by
    rwa [show 1 + Nat.find hex = Nat.find hex + 1 by omega]
  have hkN : Nat.find hex + 1 ≤ N := by omega
  refine ⟨⟨Nat.find hex + 1, by omega, hkN, hk, ?_, ?_⟩, ?_, ?_⟩
  · intro q h1 h2
    have hq := hfalse (q - 1) (by omega)
    rwa [show 1 + (q - 1) = q by omega] at hq
  · intro fuel hfuel
    exact fetchedPages_of_first_end pages (Nat.find hex) 1 hfalse hend1 fuel (by omega)
  · intro h3 fuel hmem
    obtain ⟨-, h2⟩ := fetchedPages_mem pages fuel 1 4 hmem
    have hq := h2 3 (by omega) (by omega)
    rw [hq] at h3
    exact Bool.false_ne_true h3
  · intro fuel hfuel
    have hstab : ∀ {α : Type} (body : List Item → List α),
        crawlLoop pages body fuel 1 = crawlLoop pages body N 1 := by
      intro α body
      rw [crawlLoop_stable pages body (Nat.find hex) 1 hfalse hend1 fuel (by omega),
        crawlLoop_stable pages body (Nat.find hex) 1 hfalse hend1 N (by omega)]
    constructor
    · rw [get_all_flavor_notes, get_all_flavor_notes, notesLoop_eq_crawl,
        notesLoop_eq_crawl, hstab]
    · intro tr flavors
      simp only [find_coffee_by_flavors]
      rw [findLoop_eq_crawl, findLoop_eq_crawl, hstab]

/-- Witness for C2: pages 1 and 2 are full, page 3 is empty; page 4 is never
fetched. -/
theorem crawl_pagination_termination_witness :
    (1 ≤ 3) ∧ pageEnds w2pages 3 = true ∧ 4 ∉ fetchedPages w2pages 10 1 :=
  ⟨by omega, by decide,
    (crawl_pagination_termination w2pages 3 (by omega) (by decide)).2.1 (by decide) 10⟩

/-- Membership in a deduplicating sorted insertion. -/
theorem mem_insertSorted (a s : String) :
    ∀ l, a ∈ insertSorted s l ↔ a = s ∨ a ∈ l := by
  intro l
  induction l with
  | nil => simp [insertSorted]
  | cons x xs ih =>
    rw [insertSorted]
    by_cases h1 : charsLt s.data x.data = true
    · rw [if_pos h1]; simp [List.mem_cons]
    · rw [if_neg h1]
      by_cases h2 : s = x
      · subst h2; rw [if_pos rfl]; simp [List.mem_cons]
      · rw [if_neg h2]; simp [List.mem_cons, ih]; tauto

/-- Membership in the model of `sorted(set(l))` is membership in `l`. -/
theorem mem_pySortedSet (a : String) : ∀ l, a ∈ pySortedSet l ↔ a ∈ l := by
  intro l
  induction l with
  | nil => simp [pySortedSet]
  | cons x xs ih =>
    rw [show pySortedSet (x :: xs) = insertSorted x (pySortedSet xs) from rfl,
      mem_insertSorted]
    simp [List.mem_cons, ih]

/-- A crawl whose page body flat-maps a per-container function equals the
flat-map over all crawled containers. -/
theorem crawl_flatten (pages : Nat → Option (List Item)) (g : Item → List String) :
    ∀ fuel s, crawlLoop pages (fun items => (items.map g).flatten) fuel s =
      ((crawledItems pages fuel s).map g).flatten := by
  intro fuel
  induction fuel with
  | zero => intro s; rfl
  | succ f ih =>
    intro s
    rw [crawledItems, crawlLoop, crawlLoop]
    cases pages s with
    | none => rfl
    | some items =>
      by_cases he : items.isEmpty = true
      · simp [he]
      · simp only [he, Bool.false_eq_true, if_false]
        rw [ih s.succ]
        rw [crawledItems]
        simp

/-- The notes one container contributes to the universe: all badges of the
first paragraph of its description container, lowercased. -/
theorem itemNotes_mem (a : String) (item : Item) :
    a ∈ itemNotes item ↔ ∃ paras, item.descContainer = some paras ∧
      ∃ p, paras.head? = some p ∧ ∃ b ∈ p.badges, a = pyLower b := by
  rcases item with ⟨tt, price, descC⟩
  cases descC with
  | none => simp [itemNotes]
  | some paras =>
    cases hh : paras.head? with
    | none => simp [itemNotes, hh]
    | some p =>
      simp only [itemNotes, hh]
      constructor
      · intro ha
        obtain ⟨b, hb, hab⟩ := List.mem_map.mp ha
        exact ⟨paras, rfl, p, hh, b, hb, hab.symm⟩
      · rintro ⟨q, hq, p2, hp2, b, hb, hab⟩
        obtain rfl := Option.some.inj hq
        rw [hh] at hp2
        obtain rfl := Option.some.inj hp2
        exact List.mem_map.mpr ⟨b, hb, hab.symm⟩

/-- Counterexample for C6 as stated: a description whose first paragraph
lacks the marker class still feeds the flavor universe — the index builder
collects "x" where the marker rule stated by the specification collects
nothing. -/
theorem flavor_universe_marker_rule_cex :
    get_all_flavor_notes c6pages 2 = ["x"] ∧ markerRuleFlavorUniverse c6pages 2 = [] :=
  ⟨by decide, by decide⟩

/-- C6 (amended): the flavor universe is exactly the set of lowercased badge
notes of the first paragraph — regardless of its class list — of the
description container of every crawled container. -/
theorem flavor_universe_characterization (pages : Nat → Option (List Item)) (fuel : Nat)
    (s : String) :
    s ∈ get_all_flavor_notes pages fuel ↔
      ∃ item ∈ crawledItems pages fuel 1, ∃ paras, item.descContainer = some paras ∧
        ∃ p, paras.head? = some p ∧ ∃ b ∈ p.badges, s = pyLower b := by
  rw [get_all_flavor_notes, mem_pySortedSet, notesLoop_eq_crawl, crawl_flatten,
    List.mem_flatten]
  constructor
  · rintro ⟨l, hl, hs⟩
    obtain ⟨item, hitem, rfl⟩ := List.mem_map.mp hl
    obtain ⟨paras, hd, p, hp, b, hb, hsb⟩ := (itemNotes_mem s item).mp hs
    exact ⟨item, hitem, paras, hd, p, hp, b, hb, hsb⟩
  · rintro ⟨item, hitem, paras, hd, p, hp, b, hb, hsb⟩
    exact ⟨itemNotes item, List.mem_map.mpr ⟨item, hitem, rfl⟩,
      (itemNotes_mem s item).mpr ⟨paras, hd, p, hp, b, hb, hsb⟩⟩

/-- Witness for C6: the note "x" of the concrete catalog is in the universe,
through the first (marker-less) paragraph. -/
theorem flavor_universe_characterization_witness :
    ("x" : String) ∈ get_all_flavor_notes c6pages 2 :=
  (flavor_universe_characterization c6pages 2 ("x")).mpr
    ⟨c6item, by decide, [c6para], rfl, c6para, rfl, "X", by decide, by decide⟩
